import Mathlib

set_option maxHeartbeats 1600000

namespace DxcSynth

/-- A signal-value environment, modelling a Python dict from signal names to
boolean values; `none` means the key is absent.  In this code base every value
stored in such a dict is a bool: samples are built by the harness with
`value == 'true'` (RunDiagnoser.py) and at every call site of `simulate` the
`fault_value` argument is `True` or `False` whenever `faulty_gate` is set, so
the Python value `None` never occurs as a stored value. -/
def SigMap : Type := String → Option Bool

/-- Dict update `signals[k] = v` on a dict modelled as a function. -/
def mapSet (m : SigMap) (k : String) (v : Bool) : SigMap :=
  fun s => if s = k then some v else m s

/-- One entry of `self.gates`: the tuple
`(gate_name, gate_type, [input_signals], output_signal)` built by
`_parseModel`.  `output = none` models a gate whose output pin was never
resolved (Python `gate_output = None`). -/
structure Gate where
  name : String
  type : String
  inputs : List String
  output : Option String
deriving DecidableEq, Repr

/-- The loaded model state of a `DiagnosisSystemClass` instance:
`self.inputs`, `self.outputs`, `self.gates`. -/
structure Model where
  inputs : List String
  outputs : List String
  gates : List Gate
deriving DecidableEq, Repr

/-- Python `in_vals[0] and in_vals[1]` on booleans, with short-circuit
evaluation: `in_vals[1]` is only read when `in_vals[0]` is truthy.
`none` models an IndexError. -/
def pyAnd2 (l : List Bool) : Option Bool :=
  match l.get? 0 with
  | none => none
  | some a => if a then l.get? 1 else some false

/-- Python `in_vals[0] or in_vals[1]` on booleans, with short-circuit
evaluation. -/
def pyOr2 (l : List Bool) : Option Bool :=
  match l.get? 0 with
  | none => none
  | some a => if a then some true else l.get? 1

/-- Python `t.startswith(p)`: the characters of `p` are a prefix of the
characters of `t`.  (Defined on the character lists so that concrete
instances evaluate in the kernel.) -/
def pyStartsWith (t p : String) : Bool := p.data.isPrefixOf t.data

/-- Translation of `_computeGateOutput(gate_type, in_vals)` (DiagnosisSystemClass.py lines
143-168).  The branch order is exactly the Python `elif` chain; `none`
models an IndexError raised by an out-of-range subscript. -/
def computeGateOutput (gate_type : String) (in_vals : List Bool) : Option Bool :=
  if gate_type = "nand2" then (pyAnd2 in_vals).map (fun b => !b)
  else if gate_type = "and2" then pyAnd2 in_vals
  else if gate_type = "or2" then pyOr2 in_vals
  else if gate_type = "nor2" then (pyOr2 in_vals).map (fun b => !b)
  else if gate_type = "xor2" then
    match in_vals.get? 0, in_vals.get? 1 with
    | some a, some b => some (a != b)
    | _, _ => none
  else if gate_type = "not1" ∨ gate_type = "inverter" then
    (in_vals.get? 0).map (fun b => !b)
  else if gate_type = "buf1" ∨ gate_type = "buffer" then in_vals.get? 0
  else if pyStartsWith gate_type "nand" then some (!(in_vals.all id))
  else if pyStartsWith gate_type "and" then some (in_vals.all id)
  else if pyStartsWith gate_type "or" then some (in_vals.any id)
  else if pyStartsWith gate_type "nor" then some (!(in_vals.any id))
  else some false

/-- Sufficient arity condition under which `_computeGateOutput` cannot raise:
the dedicated binary types need at least two inputs, the unary types at least
one; the startswith-family and unknown branches are total. -/
def arityOK (gate_type : String) (n : Nat) : Bool :=
  if gate_type = "nand2" ∨ gate_type = "and2" ∨ gate_type = "or2" ∨
     gate_type = "nor2" ∨ gate_type = "xor2" then decide (2 ≤ n)
  else if gate_type = "not1" ∨ gate_type = "inverter" ∨
          gate_type = "buf1" ∨ gate_type = "buffer" then decide (1 ≤ n)
  else true

/-- Translation of `simulate(self, inputs, faulty_gate, fault_value)` (lines 170-192).
`signals = dict(inputs)` is the second argument; the gate loop is the list
recursion.  `if gate_output:` is Python truthiness on a string-or-None, hence
the `some out` / `out ≠ ""` guards.  `none` propagates an IndexError from
`_computeGateOutput`.  When `faulty_gate` is `None` (`faulty = none`) the
equality with a gate name is always false, as in Python. -/
def simulate (faulty : Option String) (fv : Bool) : List Gate → SigMap → Option SigMap
  | [], signals => some signals
  | g :: rest, signals =>
    match g.output with
    | some out =>
      if out ≠ "" then
        if faulty = some g.name then
          simulate faulty fv rest (mapSet signals out fv)
        else
          match computeGateOutput g.type (g.inputs.map (fun i => (signals i).getD false)) with
          | some v => simulate faulty fv rest (mapSet signals out v)
          | none => none
      else simulate faulty fv rest signals
    | none => simulate faulty fv rest signals

/-- The simulate gate loop instrumented with its write trace: same recursion as
`simulate`, additionally returning, in execution order, the list of signal
names assigned by `signals[gate_output] = ...` during the gate loop. -/
def simulateW (faulty : Option String) (fv : Bool) :
    List Gate → SigMap → Option (SigMap × List String)
  | [], signals => some (signals, [])
  | g :: rest, signals =>
    match g.output with
    | some out =>
      if out ≠ "" then
        if faulty = some g.name then
          (simulateW faulty fv rest (mapSet signals out fv)).map (fun r => (r.1, out :: r.2))
        else
          match computeGateOutput g.type (g.inputs.map (fun i => (signals i).getD false)) with
          | some v =>
            (simulateW faulty fv rest (mapSet signals out v)).map (fun r => (r.1, out :: r.2))
          | none => none
      else simulateW faulty fv rest signals
    | none => simulateW faulty fv rest signals

/-- Translation of `_checkConsistent(self, signals, sample)` (lines 197-205): scan
`self.outputs`; compare only when the port is a key of both dicts.  The
Python guard `simulated is not None` is vacuous here because stored values
are booleans (see `SigMap`). -/
def checkConsistent (outputs : List String) (signals sample : SigMap) : Bool :=
  outputs.all (fun out =>
    match sample out, signals out with
    | some sv, some sim => sim == sv
    | _, _ => true)

/-- The extraction `{inp: sample[inp] for inp in self.inputs if inp in sample}` in `Input`. -/
def extractInputs (inputs : List String) (sample : SigMap) : SigMap :=
  fun s => if s ∈ inputs then sample s else none

/-- Python truthiness of the `timeout` / `start_time` arguments (floats or
`None`): `None` and `0` are falsy, everything else truthy. -/
def truthy : Option Rat → Bool
  | none => false
  | some q => decide (q ≠ 0)

/-- The body of one iteration of the fault-enumeration loop in `Input`
(lines 236-245): try `fault_value = True`; on consistency the gate is added
and the other polarity skipped (`continue`); otherwise try
`fault_value = False`.  Returns whether the gate name is added; `none`
models a propagated IndexError. -/
def isoStep (G : List Gate) (outs : List String) (iv sample : SigMap) (g : Gate) :
    Option Bool :=
  match simulate (some g.name) true G iv with
  | none => none
  | some sT =>
    if checkConsistent outs sT sample then some true
    else
      match simulate (some g.name) false G iv with
      | none => none
      | some sF => some (checkConsistent outs sF sample)

/-- The fault-enumeration loop of `Input` (lines 230-245), instrumented with
the list of gate indices at which the wall clock is consulted.  The guard
`timeout and start_time and idx % 100 == 0` is Python truthiness; when it
holds, `time_module.time()` (modelled by `clock idx`) is read, and
`clock idx - start_time > timeout` triggers the `break`, returning the
candidates accumulated so far. -/
def isoLoop (G : List Gate) (outs : List String) (iv sample : SigMap)
    (t st : Option Rat) (clock : Nat → Rat) :
    List Gate → Nat → List String → List Nat → Option (List String × List Nat)
  | [], _idx, acc, cons => some (acc, cons)
  | g :: rest, idx, acc, cons =>
    let consult := truthy t && truthy st && (idx % 100 == 0)
    let cons1 := if consult then cons ++ [idx] else cons
    if consult && decide (clock idx - st.getD 0 > t.getD 0) then
      some (acc, cons1)
    else
      match isoStep G outs iv sample g with
      | none => none
      | some add =>
        isoLoop G outs iv sample t st clock rest (idx + 1)
          (if add then acc ++ [g.name] else acc) cons1

/-- Translation of `Input(self, sample, timeout, start_time)` (lines 207-247).  The wall
clock is abstracted as a function `clock` from the gate index at which it is
read to the value `time_module.time()` returns there.  The isolation set is
modelled as the list of gate names added, in insertion order (only
membership matters for the claims; Python uses a `set`). -/
def Input (m : Model) (sample : SigMap) (t st : Option Rat) (clock : Nat → Rat) :
    Option (Bool × List String) :=
  let iv := extractInputs m.inputs sample
  match simulate none false m.gates iv with
  | none => none
  | some signals =>
    let detection := !(checkConsistent m.outputs signals sample)
    if detection then
      match isoLoop m.gates m.outputs iv sample t st clock m.gates 0 [] [] with
      | none => none
      | some (iso, _) => some (true, iso)
    else some (false, [])

theorem mapSet_isSome (m : SigMap) (k : String) (v : Bool) (s : String) :
    ((mapSet m k v) s).isSome = (if s = k then true else (m s).isSome) := by
  unfold mapSet
  split <;> rfl

theorem computeGateOutput_isSome (t : String) (l : List Bool)
    (h : arityOK t l.length = true) : (computeGateOutput t l).isSome = true := by
  unfold arityOK at h
  split_ifs at h with hbin hun
  · have h2 : 2 ≤ l.length := of_decide_eq_true h
    rcases l with _ | ⟨a, _ | ⟨b, tl⟩⟩
    · simp at h2
    · simp at h2
    · rcases hbin with h1 | h1 | h1 | h1 | h1 <;> subst h1 <;>
        cases a <;> cases b <;> simp [computeGateOutput, pyAnd2, pyOr2]
  · have h1 : 1 ≤ l.length := of_decide_eq_true h
    rcases l with _ | ⟨a, tl⟩
    · simp at h1
    · rcases hun with h1 | h1 | h1 | h1 <;> subst h1 <;> simp [computeGateOutput]
  · unfold computeGateOutput
    push_neg at hbin hun
    split_ifs <;> simp_all

theorem simulate_total (faulty : Option String) (fv : Bool) :
    ∀ (gates : List Gate) (init : SigMap),
      (∀ g ∈ gates, arityOK g.type g.inputs.length = true) →
      ∃ mm, simulate faulty fv gates init = some mm := by
  intro gates
  induction gates with
  | nil => exact fun init _ => ⟨init, rfl⟩
  | cons g rest ih =>
    intro init h
    have hg := h g (List.mem_cons_self g rest)
    have hrest : ∀ g' ∈ rest, arityOK g'.type g'.inputs.length = true :=
      fun g' hg' => h g' (List.mem_cons_of_mem g hg')
    simp only [simulate]
    cases hout : g.output with
    | none => exact ih init hrest
    | some out =>
      by_cases hne : out ≠ ""
      · simp only [if_pos hne]
        by_cases hf : faulty = some g.name
        · simp only [if_pos hf]
          exact ih _ hrest
        · simp only [if_neg hf]
          have hs := computeGateOutput_isSome g.type
            (g.inputs.map (fun i => (init i).getD false))
            (by rw [List.length_map]; exact hg)
          obtain ⟨v, hv⟩ := Option.isSome_iff_exists.mp hs
          rw [hv]
          exact ih _ hrest
      · simp only [if_neg hne]
        exact ih init hrest

theorem simulate_domain (f1 f2 : Option String) (v1 v2 : Bool) :
    ∀ (gates : List Gate) (init1 init2 : SigMap) (m1 m2 : SigMap),
      (∀ s, (init1 s).isSome = (init2 s).isSome) →
      simulate f1 v1 gates init1 = some m1 →
      simulate f2 v2 gates init2 = some m2 →
      ∀ s, (m1 s).isSome = (m2 s).isSome := by
  intro gates
  induction gates with
  | nil =>
    intro init1 init2 m1 m2 hdom h1 h2 s
    simp only [simulate, Option.some.injEq] at h1 h2
    rw [← h1, ← h2]; exact hdom s
  | cons g rest ih =>
    intro init1 init2 m1 m2 hdom h1 h2 s
    cases hout : g.output with
    | none =>
      simp only [simulate, hout] at h1 h2
      exact ih init1 init2 m1 m2 hdom h1 h2 s
    | some out =>
      simp only [simulate, hout] at h1 h2
      by_cases hne : out ≠ ""
      · rw [if_pos hne] at h1 h2
        have hdom2 : ∀ v1' v2' s',
            ((mapSet init1 out v1') s').isSome = ((mapSet init2 out v2') s').isSome := by
          intro v1' v2' s'
          rw [mapSet_isSome, mapSet_isSome]
          split <;> [rfl; exact hdom s']
        by_cases hf1 : f1 = some g.name
        · rw [if_pos hf1] at h1
          by_cases hf2 : f2 = some g.name
          · rw [if_pos hf2] at h2
            exact ih _ _ m1 m2 (hdom2 v1 v2) h1 h2 s
          · rw [if_neg hf2] at h2
            cases hc2 : computeGateOutput g.type (g.inputs.map (fun i => (init2 i).getD false)) with
            | none => rw [hc2] at h2; exact absurd h2 (by simp)
            | some v2' =>
              rw [hc2] at h2
              exact ih _ _ m1 m2 (hdom2 v1 v2') h1 h2 s
        · rw [if_neg hf1] at h1
          cases hc1 : computeGateOutput g.type (g.inputs.map (fun i => (init1 i).getD false)) with
          | none => rw [hc1] at h1; exact absurd h1 (by simp)
          | some v1' =>
            rw [hc1] at h1
            by_cases hf2 : f2 = some g.name
            · rw [if_pos hf2] at h2
              exact ih _ _ m1 m2 (hdom2 v1' v2) h1 h2 s
            · rw [if_neg hf2] at h2
              cases hc2 : computeGateOutput g.type (g.inputs.map (fun i => (init2 i).getD false)) with
              | none => rw [hc2] at h2; exact absurd h2 (by simp)
              | some v2' =>
                rw [hc2] at h2
                exact ih _ _ m1 m2 (hdom2 v1' v2') h1 h2 s
      · rw [if_neg hne] at h1 h2
        exact ih init1 init2 m1 m2 hdom h1 h2 s

theorem truthy_none : truthy none = false := rfl

theorem isoStep_isSome (G : List Gate) (outs : List String) (iv sample : SigMap) (g : Gate)
    (h : ∀ g' ∈ G, arityOK g'.type g'.inputs.length = true) :
    ∃ b, isoStep G outs iv sample g = some b := by
  unfold isoStep
  obtain ⟨sT, hT⟩ := simulate_total (some g.name) true G iv h
  simp only [hT]
  by_cases hcT : checkConsistent outs sT sample = true
  · rw [if_pos hcT]; exact ⟨true, rfl⟩
  · rw [if_neg hcT]
    obtain ⟨sF, hF⟩ := simulate_total (some g.name) false G iv h
    simp only [hF]
    exact ⟨_, rfl⟩

theorem isoStep_true (G : List Gate) (outs : List String) (iv sample : SigMap) (g : Gate)
    (h : ∀ g' ∈ G, arityOK g'.type g'.inputs.length = true)
    (v : Bool) (sv : SigMap)
    (hsv : simulate (some g.name) v G iv = some sv)
    (hc : checkConsistent outs sv sample = true) :
    isoStep G outs iv sample g = some true := by
  unfold isoStep
  cases v with
  | true => simp only [hsv, if_pos hc]
  | false =>
    obtain ⟨sT, hT⟩ := simulate_total (some g.name) true G iv h
    simp only [hT]
    by_cases hcT : checkConsistent outs sT sample = true
    · rw [if_pos hcT]
    · rw [if_neg hcT]
      simp only [hsv, hc]

theorem isoLoop_acc_mono (G : List Gate) (outs : List String) (iv sample : SigMap)
    (t st : Option Rat) (clock : Nat → Rat) :
    ∀ (gs : List Gate) (idx : Nat) (acc : List String) (cons : List Nat)
      (iso : List String) (cons2 : List Nat),
      isoLoop G outs iv sample t st clock gs idx acc cons = some (iso, cons2) →
      ∀ x ∈ acc, x ∈ iso := by
  intro gs
  induction gs with
  | nil =>
    intro idx acc cons iso cons2 h x hx
    simp only [isoLoop, Option.some.injEq, Prod.mk.injEq] at h
    rw [← h.1]; exact hx
  | cons g rest ih =>
    intro idx acc cons iso cons2 h x hx
    simp only [isoLoop] at h
    split at h
    · simp only [Option.some.injEq, Prod.mk.injEq] at h
      rw [← h.1]; exact hx
    · cases hstep : isoStep G outs iv sample g with
      | none => rw [hstep] at h; exact absurd h (by simp)
      | some add =>
        rw [hstep] at h
        have := ih _ _ _ _ _ h x
        cases add with
        | true => exact this (List.mem_append_left _ hx)
        | false => exact this hx

theorem isoLoop_none_mem (G : List Gate) (outs : List String) (iv sample : SigMap)
    (clock : Nat → Rat) :
    ∀ (gs : List Gate) (idx : Nat) (acc : List String) (cons : List Nat)
      (iso : List String) (cons2 : List Nat),
      isoLoop G outs iv sample none none clock gs idx acc cons = some (iso, cons2) →
      ∀ g ∈ gs, isoStep G outs iv sample g = some true → g.name ∈ iso := by
  intro gs
  induction gs with
  | nil => intro idx acc cons iso cons2 h g hg; exact absurd hg (List.not_mem_nil g)
  | cons g0 rest ih =>
    intro idx acc cons iso cons2 h g hg hstep
    simp only [isoLoop, truthy, Bool.false_and, Bool.and_self_left] at h
    simp only [Bool.false_and, if_neg (by simp : ¬(false = true))] at h
    rcases List.mem_cons.mp hg with rfl | hg'
    · rw [hstep] at h
      exact isoLoop_acc_mono G outs iv sample none none clock _ _ _ _ _ _ h
        g.name (List.mem_append_right _ (List.mem_singleton.mpr rfl))
    · cases hstep0 : isoStep G outs iv sample g0 with
      | none => rw [hstep0] at h; exact absurd h (by simp)
      | some add => rw [hstep0] at h; exact ih _ _ _ _ _ h g hg' hstep

theorem isoLoop_names (G : List Gate) (outs : List String) (iv sample : SigMap)
    (t st : Option Rat) (clock : Nat → Rat) :
    ∀ (gs : List Gate) (idx : Nat) (acc : List String) (cons : List Nat)
      (iso : List String) (cons2 : List Nat),
      isoLoop G outs iv sample t st clock gs idx acc cons = some (iso, cons2) →
      ∀ x ∈ iso, x ∈ acc ∨ ∃ g ∈ gs, g.name = x := by
  intro gs
  induction gs with
  | nil =>
    intro idx acc cons iso cons2 h x hx
    simp only [isoLoop, Option.some.injEq, Prod.mk.injEq] at h
    rw [← h.1] at hx
    exact Or.inl hx
  | cons g rest ih =>
    intro idx acc cons iso cons2 h x hx
    simp only [isoLoop] at h
    split at h
    · simp only [Option.some.injEq, Prod.mk.injEq] at h
      rw [← h.1] at hx
      exact Or.inl hx
    · cases hstep : isoStep G outs iv sample g with
      | none => rw [hstep] at h; exact absurd h (by simp)
      | some add =>
        rw [hstep] at h
        rcases ih _ _ _ _ _ h x hx with hacc | ⟨g', hg', hname⟩
        · cases add with
          | true =>
            rcases List.mem_append.mp hacc with h1 | h1
            · exact Or.inl h1
            · exact Or.inr ⟨g, List.mem_cons_self g rest, (List.mem_singleton.mp h1).symm⟩
          | false => exact Or.inl hacc
        · exact Or.inr ⟨g', List.mem_cons_of_mem g hg', hname⟩

theorem isoLoop_disabled (G : List Gate) (outs : List String) (iv sample : SigMap)
    (t st : Option Rat) (clock : Nat → Rat)
    (hd : truthy t = false ∨ truthy st = false) :
    ∀ (gs : List Gate) (idx : Nat) (acc : List String) (cons : List Nat),
      isoLoop G outs iv sample t st clock gs idx acc cons =
        isoLoop G outs iv sample none none clock gs idx acc cons ∧
      (∀ iso cons2,
        isoLoop G outs iv sample t st clock gs idx acc cons = some (iso, cons2) →
        cons2 = cons) := by
  intro gs
  induction gs with
  | nil =>
    intro idx acc cons
    refine ⟨rfl, ?_⟩
    intro iso cons2 h
    simp only [isoLoop, Option.some.injEq, Prod.mk.injEq] at h
    exact h.2.symm
  | cons g rest ih =>
    intro idx acc cons
    have hcf : (truthy t && truthy st && (idx % 100 == 0)) = false := by
      rcases hd with h1 | h1 <;> simp [h1]
    constructor
    · simp only [isoLoop, hcf, truthy_none, Bool.false_and, Bool.false_eq_true, if_false]
      cases hstep : isoStep G outs iv sample g with
      | none => rfl
      | some add => exact (ih _ _ _).1
    · intro iso cons2 h
      simp only [isoLoop, hcf, Bool.false_and, Bool.false_eq_true, if_false] at h
      cases hstep : isoStep G outs iv sample g with
      | none => rw [hstep] at h; exact absurd h (by simp)
      | some add =>
        rw [hstep] at h
        exact (ih _ _ _).2 iso cons2 h

theorem simulateW_spec (faulty : Option String) (fv : Bool) :
    ∀ (gates : List Gate) (init : SigMap),
      (∀ g ∈ gates, ∃ out, g.output = some out ∧ out ≠ "") →
      (∀ g ∈ gates, arityOK g.type g.inputs.length = true) →
      ∃ m ws, simulateW faulty fv gates init = some (m, ws) ∧
        ws = gates.filterMap (fun g => g.output) ∧
        (∀ s, (∀ g ∈ gates, g.output ≠ some s) → m s = init s) := by
  intro gates
  induction gates with
  | nil =>
    intro init _ _
    exact ⟨init, [], rfl, rfl, fun s _ => rfl⟩
  | cons g rest ih =>
    intro init hres harity
    obtain ⟨out, hout, hne⟩ := hres g (List.mem_cons_self g rest)
    have hrest1 : ∀ g' ∈ rest, ∃ o, g'.output = some o ∧ o ≠ "" :=
      fun g' hg' => hres g' (List.mem_cons_of_mem g hg')
    have hrest2 : ∀ g' ∈ rest, arityOK g'.type g'.inputs.length = true :=
      fun g' hg' => harity g' (List.mem_cons_of_mem g hg')
    have hstep : ∀ v : Bool, ∃ m ws,
        (simulateW faulty fv rest (mapSet init out v)).map (fun r => (r.1, out :: r.2)) =
          some (m, ws) ∧
        ws = (g :: rest).filterMap (fun g' => g'.output) ∧
        (∀ s, (∀ g' ∈ g :: rest, g'.output ≠ some s) → m s = init s) := by
      intro v
      obtain ⟨m, ws, hsim, hws, hframe⟩ := ih (mapSet init out v) hrest1 hrest2
      refine ⟨m, out :: ws, by rw [hsim]; rfl, ?_, ?_⟩
      · rw [List.filterMap_cons, hout, hws]
      · intro s hs
        have hns : out ≠ s := by
          intro heq
          exact hs g (List.mem_cons_self g rest) (by rw [hout, heq])
        rw [hframe s (fun g' hg' => hs g' (List.mem_cons_of_mem g hg')),
          mapSet, if_neg (fun heq => hns heq.symm)]
    simp only [simulateW, hout, if_pos hne]
    by_cases hf : faulty = some g.name
    · rw [if_pos hf]; exact hstep fv
    · rw [if_neg hf]
      have hs := computeGateOutput_isSome g.type
        (g.inputs.map (fun i => (init i).getD false))
        (by rw [List.length_map]; exact harity g (List.mem_cons_self g rest))
      obtain ⟨v, hv⟩ := Option.isSome_iff_exists.mp hs
      simp only [hv]
      exact hstep v

/-- The index `output_to_gate` built at the top of `_topologicalSort` (lines 109-112):
`if output: output_to_gate[output] = gate_name`, iterating `gate_info` in
insertion order, later entries overwriting earlier ones; `if output:` is
Python truthiness on a string-or-None. -/
def outputToGate (gi : List Gate) : String → Option String :=
  fun s => gi.foldl (fun acc g =>
    match g.output with
    | some o => if o ≠ "" ∧ o = s then some g.name else acc
    | none => acc) none

/-- The `in_degree` table of `_topologicalSort` (lines 115-125): for each
gate, one count per input signal that some gate produces; names absent from
the table default to `0` (`defaultdict(int)`).  Int-valued like a Python
int. -/
def inDegree (gi : List Gate) : String → Int :=
  fun s => gi.foldl (fun acc g =>
    acc + (if g.name = s
      then ((g.inputs.filter (fun inp => (outputToGate gi inp).isSome)).length : Int)
      else 0)) 0

/-- The `graph` adjacency table of `_topologicalSort` (lines 116-123):
`graph[producer]` lists, in insertion order, one copy of the consuming
gate's name per input edge. -/
def graphAdj (gi : List Gate) : String → List String :=
  fun p => gi.foldl (fun acc g =>
    acc ++ (g.inputs.filter (fun inp => outputToGate gi inp = some p)).map
      (fun _ => g.name)) []

/-- The `while queue:` loop of Kahn's algorithm (lines 131-139), with an
explicit fuel bound in place of the unbounded Python `while` (the fuel
chosen by `topologicalSort` dominates every possible number of iterations:
each iteration pops one queue element and at most `|edges|` elements are
ever enqueued after the initial queue).  `queue.pop(0)` is the FIFO head;
popped names are looked up in `gate_info` (always present in Python; the
`none` branch is unreachable and returns the accumulator). -/
def kahnLoop (gi : List Gate) (graph : String → List String) :
    Nat → List String → (String → Int) → List Gate → List Gate
  | 0, _, _, acc => acc
  | _ + 1, [], _, acc => acc
  | fuel + 1, gname :: queue, deg, acc =>
    match gi.find? (fun g => g.name = gname) with
    | none => acc
    | some g =>
      let step := (graph gname).foldl
        (fun (dq : (String → Int) × List String) dep =>
          let d2 : String → Int := fun s => if s = dep then dq.1 s - 1 else dq.1 s
          if d2 dep = 0 then (d2, dq.2 ++ [dep]) else (d2, dq.2))
        (deg, [])
      kahnLoop gi graph fuel (queue ++ step.2) step.1
        (acc ++ [⟨gname, g.type, g.inputs, g.output⟩])

/-- Translation of `_topologicalSort(self, gate_info)` (lines 106-141): build the producer
index, the dependency graph and the in-degree table, seed the queue with the
zero-in-degree gates in insertion order, and run Kahn's algorithm.  Gates
whose in-degree never reaches zero (a dependency cycle) are never emitted;
the function returns normally in every case. -/
def topologicalSort (gi : List Gate) : List Gate :=
  let deg := inDegree gi
  let queue0 := (gi.map (fun g => g.name)).filter (fun n => decide (deg n = 0))
  let fuel := gi.length + gi.foldl (fun a g => a + g.inputs.length) 0 + 1
  kahnLoop gi (graphAdj gi) fuel queue0 deg []

/-- The port-classification loop of `_parseModel` (lines 55-63): a component
of type `port` goes to `self.inputs` when its name starts with `i`, to
`self.outputs` when it starts with `o`, and nowhere otherwise.  `components`
is the dict `name -> componentType` in insertion order. -/
def portStep (acc : List String × List String) (nc : String × String) :
    List String × List String :=
  if nc.2 = "port" then
    if pyStartsWith nc.1 "i" then (acc.1 ++ [nc.1], acc.2)
    else if pyStartsWith nc.1 "o" then (acc.1, acc.2 ++ [nc.1])
    else acc
  else acc

def classifyPorts (components : List (String × String)) : List String × List String :=
  components.foldl portStep ([], [])

/-- The sort key `lambda x: (len(x), x)` of lines 66-67, as a boolean
less-or-equal on the pairs. -/
def portLe (a b : String) : Bool :=
  decide (a.length < b.length) || (decide (a.length = b.length) && decide (a ≤ b))

/-- Lines 55-67 of `_parseModel`: classify the ports, then sort each list by
`(len, lex)`. -/
def loadPorts (components : List (String × String)) : List String × List String :=
  let p := classifyPorts components
  (p.1.mergeSort portLe, p.2.mergeSort portLe)

theorem filterMap_output_length :
    ∀ (l : List Gate), (∀ g ∈ l, (g.output).isSome = true) →
      (l.filterMap (fun g => g.output)).length = l.length := by
  intro l
  induction l with
  | nil => intro _; rfl
  | cons g rest ih =>
    intro h
    obtain ⟨o, ho⟩ := Option.isSome_iff_exists.mp (h g (List.mem_cons_self g rest))
    rw [List.filterMap_cons, ho]
    simp only [List.length_cons]
    rw [ih (fun g' hg' => h g' (List.mem_cons_of_mem g hg'))]

theorem startsWith_ne (t s p : String) (h : pyStartsWith t p = true)
    (hs : pyStartsWith s p = false) : t ≠ s := by
  intro he
  rw [he, hs] at h
  exact absurd h (by simp)

theorem classifyPorts_startsWith :
    ∀ (comps : List (String × String)) (acc : List String × List String),
      (∀ x ∈ (comps.foldl portStep acc).1, x ∈ acc.1 ∨ pyStartsWith x "i" = true) ∧
      (∀ x ∈ (comps.foldl portStep acc).2, x ∈ acc.2 ∨ pyStartsWith x "o" = true) := by
  intro comps
  induction comps with
  | nil => exact fun acc => ⟨fun x hx => Or.inl hx, fun x hx => Or.inl hx⟩
  | cons nc rest ih =>
    intro acc
    simp only [List.foldl_cons]
    constructor
    · intro x hx
      rcases (ih (portStep acc nc)).1 x hx with hmem | hsw
      · unfold portStep at hmem
        split_ifs at hmem with h1 h2 h3
        · rcases List.mem_append.mp hmem with h | h
          · exact Or.inl h
          · exact Or.inr ((List.mem_singleton.mp h) ▸ h2)
        · exact Or.inl hmem
        · exact Or.inl hmem
        · exact Or.inl hmem
      · exact Or.inr hsw
    · intro x hx
      rcases (ih (portStep acc nc)).2 x hx with hmem | hsw
      · unfold portStep at hmem
        split_ifs at hmem with h1 h2 h3
        · exact Or.inl hmem
        · rcases List.mem_append.mp hmem with h | h
          · exact Or.inl h
          · exact Or.inr ((List.mem_singleton.mp h) ▸ h3)
        · exact Or.inl hmem
        · exact Or.inl hmem
      · exact Or.inr hsw

theorem isoLoop_total (G : List Gate) (outs : List String) (iv sample : SigMap)
    (t st : Option Rat) (clock : Nat → Rat)
    (harity : ∀ g' ∈ G, arityOK g'.type g'.inputs.length = true) :
    ∀ (gs : List Gate) (idx : Nat) (acc : List String) (cons : List Nat),
      ∃ r, isoLoop G outs iv sample t st clock gs idx acc cons = some r := by
  intro gs
  induction gs with
  | nil => exact fun idx acc cons => ⟨(acc, cons), rfl⟩
  | cons g rest ih =>
    intro idx acc cons
    simp only [isoLoop]
    split
    · exact ⟨_, rfl⟩
    · obtain ⟨b, hb⟩ := isoStep_isSome G outs iv sample g harity
      rw [hb]
      exact ih _ _ _

/-- The gate indices in `[idx, m0]` at which `idx % 100 == 0` holds: the
wall-clock consultation points of the enumeration loop. -/
def consultsUpTo (idx m0 : Nat) : List Nat :=
  (List.range' idx (m0 + 1 - idx)).filter (fun k => k % 100 == 0)

theorem consultsUpTo_step (idx m0 : Nat) (h : idx < m0) :
    consultsUpTo idx m0 =
      (if idx % 100 == 0 then [idx] else []) ++ consultsUpTo (idx + 1) m0 := by
  unfold consultsUpTo
  have h1 : m0 + 1 - idx = (m0 - idx) + 1 := by omega
  have h2 : m0 + 1 - (idx + 1) = m0 - idx := by omega
  rw [h1, h2, List.range'_succ, List.filter_cons]
  split <;> simp

theorem consultsUpTo_self (m0 : Nat) (hm0 : m0 % 100 = 0) :
    consultsUpTo m0 m0 = [m0] := by
  unfold consultsUpTo
  have h1 : m0 + 1 - m0 = 1 := by omega
  rw [h1]
  simp [List.range', hm0]

theorem isoLoop_break (G : List Gate) (outs : List String) (iv sample : SigMap)
    (q s : Rat) (clock : Nat → Rat)
    (hq : q ≠ 0) (hs : s ≠ 0)
    (m0 : Nat) (hm0 : m0 % 100 = 0) (hex : clock m0 - s > q)
    (harity : ∀ g' ∈ G, arityOK g'.type g'.inputs.length = true) :
    ∀ (gs : List Gate) (idx : Nat) (acc : List String) (cons : List Nat),
      idx ≤ m0 → m0 < idx + gs.length →
      (∀ k, idx ≤ k → k < m0 → k % 100 = 0 → ¬(clock k - s > q)) →
      ∃ iso,
        isoLoop G outs iv sample (some q) (some s) clock gs idx acc cons =
          some (iso, cons ++ consultsUpTo idx m0) ∧
        ∀ cons2,
          isoLoop G outs iv sample none none clock (gs.take (m0 - idx)) idx acc cons2 =
            some (iso, cons2) := by
  have htq : truthy (some q) = true := by simp [truthy, hq]
  have hts : truthy (some s) = true := by simp [truthy, hs]
  intro gs
  induction gs with
  | nil =>
    intro idx acc cons hle hlt _
    simp only [List.length_nil, Nat.add_zero] at hlt
    omega
  | cons g rest ih =>
    intro idx acc cons hle hlt hfirst
    by_cases hidx : idx = m0
    · subst hidx
      have hguard : (truthy (some q) && truthy (some s) && (idx % 100 == 0)) = true := by
        simp [htq, hts, hm0]
      have hexceed : decide (clock idx - (some s : Option Rat).getD 0 > (some q : Option Rat).getD 0) = true := by
        simp only [Option.getD_some]
        exact decide_eq_true hex
      refine ⟨acc, ?_, ?_⟩
      · simp only [isoLoop, hguard, hexceed, Bool.and_self, if_true, consultsUpTo_self idx hm0]
      · intro cons2
        simp only [Nat.sub_self, List.take_zero, isoLoop]
    · have hlt2 : idx < m0 := lt_of_le_of_ne hle hidx
      obtain ⟨add, hstep⟩ := isoStep_isSome G outs iv sample g harity
      have hlen : m0 < idx + 1 + rest.length := by
        simp only [List.length_cons] at hlt; omega
      have hfirst2 : ∀ k, idx + 1 ≤ k → k < m0 → k % 100 = 0 → ¬(clock k - s > q) :=
        fun k hk1 hk2 hk3 => hfirst k (by omega) hk2 hk3
      have hNT : ∀ (iso : List String),
          (∀ cons2, isoLoop G outs iv sample none none clock (rest.take (m0 - (idx + 1)))
            (idx + 1) (if add = true then acc ++ [g.name] else acc) cons2 = some (iso, cons2)) →
          ∀ cons2, isoLoop G outs iv sample none none clock ((g :: rest).take (m0 - idx))
            idx acc cons2 = some (iso, cons2) := by
        intro iso h2 cons2
        have htake : m0 - idx = (m0 - (idx + 1)) + 1 := by omega
        rw [htake, List.take_succ_cons]
        simp only [isoLoop, truthy_none, Bool.false_and, Bool.false_eq_true, if_false, hstep]
        exact h2 cons2
      by_cases hmod : idx % 100 = 0
      · have hguard : (truthy (some q) && truthy (some s) && (idx % 100 == 0)) = true := by
          simp [htq, hts, hmod]
        have hnoex : decide (clock idx - (some s : Option Rat).getD 0 > (some q : Option Rat).getD 0) = false :=
          decide_eq_false (by simpa using hfirst idx le_rfl hlt2 hmod)
        obtain ⟨iso, h1, h2⟩ := ih (idx + 1) (if add = true then acc ++ [g.name] else acc)
          (cons ++ [idx]) (by omega) hlen hfirst2
        refine ⟨iso, ?_, hNT iso h2⟩
        simp only [isoLoop, hguard, hnoex, Bool.true_and, Bool.false_eq_true, if_false,
          if_true, hstep]
        rw [h1, consultsUpTo_step idx m0 hlt2]
        simp [hmod, List.append_assoc]
      · have hguard : (truthy (some q) && truthy (some s) && (idx % 100 == 0)) = false := by
          simp [htq, hts, hmod]
        obtain ⟨iso, h1, h2⟩ := ih (idx + 1) (if add = true then acc ++ [g.name] else acc)
          cons (by omega) hlen hfirst2
        refine ⟨iso, ?_, hNT iso h2⟩
        simp only [isoLoop, hguard, Bool.false_and, Bool.false_eq_true, if_false, hstep]
        rw [h1, consultsUpTo_step idx m0 hlt2]
        simp [hmod]


/-- The signal map binding exactly the input ports to an assignment `x` of
booleans: the claims' quantification "every assignment of booleans to the
input ports". -/
def inputMap (inputs : List String) (x : String → Bool) : SigMap :=
  fun s => if s ∈ inputs then some (x s) else none

/-- The observation of claim C1: the input assignment `x` together with the
output-port values of a (faulty) simulation result `fsig`. -/
def obsOf (m : Model) (x : String → Bool) (fsig : SigMap) : SigMap :=
  fun s =>
    if s ∈ m.inputs then some (x s)
    else if s ∈ m.outputs then fsig s else none

/-- A one-gate AND2 model (spec scenario 1), used to witness the claims. -/
def demoGate : Gate := ⟨"gate1", "and2", ["i1", "i2"], some "o1"⟩

def demoModel : Model := ⟨["i1", "i2"], ["o1"], [demoGate]⟩

/-- Observation with both inputs false but the output stuck at true. -/
def demoFaulty : SigMap :=
  fun s => if s = "i1" then some false else if s = "i2" then some false
    else if s = "o1" then some true else none

/-- The nominal simulation result of `demoModel` under `demoFaulty`'s inputs. -/
def demoNom : SigMap := mapSet (extractInputs demoModel.inputs demoFaulty) "o1" false

theorem checkConsistent_congr (outputs : List String)
    (signals sample signals2 sample2 : SigMap)
    (hs : ∀ out ∈ outputs, signals2 out = signals out)
    (hp : ∀ out ∈ outputs, sample2 out = sample out) :
    checkConsistent outputs signals2 sample2 = checkConsistent outputs signals sample := by
  revert hs hp
  induction outputs with
  | nil => intro _ _; rfl
  | cons o rest ih =>
    intro hs hp
    simp only [checkConsistent, List.all_cons]
    rw [hs o (List.mem_cons_self o rest), hp o (List.mem_cons_self o rest)]
    have hr := ih (fun out h => hs out (List.mem_cons_of_mem o h))
      (fun out h => hp out (List.mem_cons_of_mem o h))
    simp only [checkConsistent] at hr
    rw [hr]

/-- Claim C6: `_checkConsistent(signals, sample)` returns true iff, for every
output port of the model present in both the simulated signal map and the
sample, the two values are equal; output ports absent from the sample are
ignored, and input values are never compared (the result depends only on the
two maps' values at the output ports). -/
theorem C6_checkConsistent (outputs : List String) (signals sample : SigMap) :
    (checkConsistent outputs signals sample = true ↔
      ∀ out ∈ outputs, ∀ sv sim : Bool,
        sample out = some sv → signals out = some sim → sim = sv) ∧
    (∀ signals2 sample2 : SigMap,
      (∀ out ∈ outputs, signals2 out = signals out) →
      (∀ out ∈ outputs, sample2 out = sample out) →
      checkConsistent outputs signals2 sample2 = checkConsistent outputs signals sample) := by
  constructor
  · rw [checkConsistent, List.all_eq_true]
    constructor
    · intro h out hout sv sim hsv hsim
      have ho := h out hout
      rw [hsv, hsim] at ho
      simpa using ho
    · intro h out hout
      cases hsv : sample out with
      | none => simp
      | some sv =>
        cases hsim : signals out with
        | none => simp
        | some sim => simp [h out hout sv sim hsv hsim]
  · intro signals2 sample2 hs hp
    exact checkConsistent_congr outputs signals sample signals2 sample2 hs hp

theorem C6_witness :
    checkConsistent ["o1"] demoNom demoFaulty = false ∧
    checkConsistent ["o1"] demoNom demoNom = true := by
  constructor
  · by_contra h
    rw [Bool.not_eq_false] at h
    have := (C6_checkConsistent ["o1"] demoNom demoFaulty).1.mp h "o1"
      (by simp) true false (by decide) (by decide)
    exact absurd this (by decide)
  · exact (C6_checkConsistent ["o1"] demoNom demoNom).1.mpr (by decide)

/-- Claim C3: for every loaded model and sample, `Input` returns
`detection = true` iff the nominal simulation of the sample's input-port
values is inconsistent with the sample's observed outputs, and whenever
detection is false the isolation set is empty. -/
theorem C3_detection (m : Model) (sample : SigMap) (t st : Option Rat)
    (clock : Nat → Rat) (nom : SigMap) (d : Bool) (iso : List String)
    (hnom : simulate none false m.gates (extractInputs m.inputs sample) = some nom)
    (hI : Input m sample t st clock = some (d, iso)) :
    (d = true ↔ checkConsistent m.outputs nom sample = false) ∧
    (d = false → iso = []) := by
  unfold Input at hI
  simp only [hnom] at hI
  by_cases hc : checkConsistent m.outputs nom sample = true
  · rw [hc] at hI
    simp only [Bool.not_true, Bool.false_eq_true, if_false, Option.some.injEq,
      Prod.mk.injEq] at hI
    constructor
    · rw [← hI.1, hc]
      simp
    · intro _; exact hI.2.symm
  · rw [Bool.not_eq_true] at hc
    rw [hc] at hI
    simp only [Bool.not_false, if_true] at hI
    cases hloop : isoLoop m.gates m.outputs (extractInputs m.inputs sample) sample
        t st clock m.gates 0 [] [] with
    | none => rw [hloop] at hI; exact absurd hI (by simp)
    | some r =>
      rw [hloop] at hI
      cases r with
      | mk iso2 cons2 =>
        simp only [Option.some.injEq, Prod.mk.injEq] at hI
        constructor
        · rw [hc, ← hI.1]
          simp
        · intro hd
          rw [← hI.1] at hd
          exact absurd hd (by simp)

theorem C3_witness :
    (true = true ↔ checkConsistent demoModel.outputs demoNom demoFaulty = false) ∧
    (true = false → ["gate1"] = []) :=
  C3_detection demoModel demoFaulty none none (fun _ => 0) demoNom true ["gate1"] rfl rfl

/-- Claim C8: every element of the isolation set returned by `Input` is the
name of a gate of the model's stored gate list; under the loaded-model naming
discipline (gate names distinct from port names) it therefore contains no
port name. -/
theorem C8_candidate_names (m : Model) (sample : SigMap) (t st : Option Rat)
    (clock : Nat → Rat) (d : Bool) (iso : List String)
    (hI : Input m sample t st clock = some (d, iso))
    (hports : ∀ g ∈ m.gates, g.name ∉ m.inputs ∧ g.name ∉ m.outputs) :
    ∀ x ∈ iso, (∃ g ∈ m.gates, g.name = x) ∧ x ∉ m.inputs ∧ x ∉ m.outputs := by
  unfold Input at hI
  cases hsim : simulate none false m.gates (extractInputs m.inputs sample) with
  | none => simp [hsim] at hI
  | some nom =>
    simp only [hsim] at hI
    by_cases hc : checkConsistent m.outputs nom sample = true
    · rw [hc] at hI
      simp only [Bool.not_true, Bool.false_eq_true, if_false, Option.some.injEq,
        Prod.mk.injEq] at hI
      intro x hx
      rw [← hI.2] at hx
      exact absurd hx (List.not_mem_nil x)
    · rw [Bool.not_eq_true] at hc
      rw [hc] at hI
      simp only [Bool.not_false, if_true] at hI
      cases hloop : isoLoop m.gates m.outputs (extractInputs m.inputs sample) sample
          t st clock m.gates 0 [] [] with
      | none => rw [hloop] at hI; exact absurd hI (by simp)
      | some r =>
        rw [hloop] at hI
        cases r with
        | mk iso2 cons2 =>
          simp only [Option.some.injEq, Prod.mk.injEq] at hI
          intro x hx
          rw [← hI.2] at hx
          rcases isoLoop_names m.gates m.outputs (extractInputs m.inputs sample) sample
              t st clock m.gates 0 [] [] iso2 cons2 hloop x hx with hacc | ⟨g, hg, hname⟩
          · exact absurd hacc (List.not_mem_nil x)
          · exact ⟨⟨g, hg, hname⟩, hname ▸ (hports g hg).1, hname ▸ (hports g hg).2⟩

theorem C8_witness :
    (∃ g ∈ demoModel.gates, g.name = "gate1") ∧
      "gate1" ∉ demoModel.inputs ∧ "gate1" ∉ demoModel.outputs :=
  C8_candidate_names demoModel demoFaulty none none (fun _ => 0) true ["gate1"]
    rfl (by decide) "gate1" (by decide)

/-- Claim C10: with `timeout` equal to `0` or `None`, or `start_time` equal
to `None`, the deadline is never consulted (the enumeration loop behaves
exactly as the unbudgeted loop and its consultation trace stays empty), so a
zero budget means no budget, not an immediate abort. -/
theorem C10_zero_budget (m : Model) (sample : SigMap) (t st : Option Rat)
    (clock : Nat → Rat)
    (h : t = none ∨ t = some 0 ∨ st = none) :
    Input m sample t st clock = Input m sample none none clock ∧
    (∀ gs idx acc cons,
      isoLoop m.gates m.outputs (extractInputs m.inputs sample) sample t st clock
          gs idx acc cons =
        isoLoop m.gates m.outputs (extractInputs m.inputs sample) sample none none clock
          gs idx acc cons ∧
      (∀ iso cons2,
        isoLoop m.gates m.outputs (extractInputs m.inputs sample) sample t st clock
            gs idx acc cons = some (iso, cons2) →
        cons2 = cons)) := by
  have hd : truthy t = false ∨ truthy st = false := by
    rcases h with rfl | rfl | rfl
    · exact Or.inl rfl
    · exact Or.inl (by simp [truthy])
    · exact Or.inr rfl
  refine ⟨?_, fun gs idx acc cons =>
    ⟨(isoLoop_disabled m.gates m.outputs (extractInputs m.inputs sample) sample
        t st clock hd gs idx acc cons).1,
     (isoLoop_disabled m.gates m.outputs (extractInputs m.inputs sample) sample
        t st clock hd gs idx acc cons).2⟩⟩
  unfold Input
  cases hsim : simulate none false m.gates (extractInputs m.inputs sample) with
  | none => simp only [hsim]
  | some nom =>
    simp only [hsim]
    rw [(isoLoop_disabled m.gates m.outputs (extractInputs m.inputs sample) sample
      t st clock hd m.gates 0 [] []).1]

theorem C10_witness :
    Input demoModel demoFaulty (some 0) (some 5) (fun _ => 100) =
      Input demoModel demoFaulty none none (fun _ => 100) :=
  (C10_zero_budget demoModel demoFaulty (some 0) (some 5) (fun _ => 100)
    (Or.inr (Or.inl rfl))).1

/-- Claim C4 counterexample: `and2` belongs to the and family, yet on a
three-element input list the evaluator returns `true` where the conjunction
of all inputs is `false`: the dedicated `and2` branch reads only the first
two inputs, so the claim's "conjunction of all inputs ... at any arity" fails
for the `and2` type at arity 3. -/
theorem C4_counterexample :
    computeGateOutput "and2" [true, true, false] = some true ∧
    [true, true, false].all id = false := by decide

/-- Claim C4 as amended: the evaluator returns `in[0]` for `buf1`/`buffer`,
`¬in[0]` for `not1`/`inverter`, `in[0] ≠ in[1]` for `xor2`; for the dedicated
binary types `and2`/`nand2`/`or2`/`nor2` it uses only the first two inputs;
for every other type matching a `nand`/`and`/`or`/`nor` prefix (and not a
dedicated name, following the elif chain) it folds over all inputs at any
arity; any unknown type yields `false`. -/
theorem C4_gate_evaluator (l : List Bool) (a b : Bool) (t : String) :
    (computeGateOutput "buf1" (a :: l) = some a) ∧
    (computeGateOutput "buffer" (a :: l) = some a) ∧
    (computeGateOutput "not1" (a :: l) = some (!a)) ∧
    (computeGateOutput "inverter" (a :: l) = some (!a)) ∧
    (computeGateOutput "xor2" (a :: b :: l) = some (a != b)) ∧
    (computeGateOutput "and2" (a :: b :: l) = some (a && b)) ∧
    (computeGateOutput "nand2" (a :: b :: l) = some (!(a && b))) ∧
    (computeGateOutput "or2" (a :: b :: l) = some (a || b)) ∧
    (computeGateOutput "nor2" (a :: b :: l) = some (!(a || b))) ∧
    (pyStartsWith t "nand" = true → t ≠ "nand2" →
      computeGateOutput t l = some (!(l.all id))) ∧
    (pyStartsWith t "and" = true → t ≠ "and2" → pyStartsWith t "nand" = false →
      computeGateOutput t l = some (l.all id)) ∧
    (pyStartsWith t "or" = true → t ≠ "or2" →
      pyStartsWith t "nand" = false → pyStartsWith t "and" = false →
      computeGateOutput t l = some (l.any id)) ∧
    (pyStartsWith t "nor" = true → t ≠ "nor2" →
      pyStartsWith t "nand" = false → pyStartsWith t "and" = false →
      pyStartsWith t "or" = false →
      computeGateOutput t l = some (!(l.any id))) ∧
    ((∀ s ∈ ["nand2", "and2", "or2", "nor2", "xor2", "not1", "inverter",
        "buf1", "buffer"], t ≠ s) →
      pyStartsWith t "nand" = false → pyStartsWith t "and" = false →
      pyStartsWith t "or" = false → pyStartsWith t "nor" = false →
      computeGateOutput t l = some false) := by
  refine ⟨rfl, rfl, rfl, rfl, rfl, ?_, ?_, ?_, ?_, ?_, ?_, ?_, ?_, ?_⟩
  · cases a <;> rfl
  · cases a <;> rfl
  · cases a <;> rfl
  · cases a <;> rfl
  · intro hsw hne
    unfold computeGateOutput
    rw [if_neg hne,
      if_neg (startsWith_ne t "and2" "nand" hsw (by decide)),
      if_neg (startsWith_ne t "or2" "nand" hsw (by decide)),
      if_neg (startsWith_ne t "nor2" "nand" hsw (by decide)),
      if_neg (startsWith_ne t "xor2" "nand" hsw (by decide)),
      if_neg (fun h => h.elim (startsWith_ne t "not1" "nand" hsw (by decide))
        (startsWith_ne t "inverter" "nand" hsw (by decide))),
      if_neg (fun h => h.elim (startsWith_ne t "buf1" "nand" hsw (by decide))
        (startsWith_ne t "buffer" "nand" hsw (by decide))),
      if_pos hsw]
  · intro hsw hne hnand
    unfold computeGateOutput
    rw [if_neg (startsWith_ne t "nand2" "and" hsw (by decide)),
      if_neg hne,
      if_neg (startsWith_ne t "or2" "and" hsw (by decide)),
      if_neg (startsWith_ne t "nor2" "and" hsw (by decide)),
      if_neg (startsWith_ne t "xor2" "and" hsw (by decide)),
      if_neg (fun h => h.elim (startsWith_ne t "not1" "and" hsw (by decide))
        (startsWith_ne t "inverter" "and" hsw (by decide))),
      if_neg (fun h => h.elim (startsWith_ne t "buf1" "and" hsw (by decide))
        (startsWith_ne t "buffer" "and" hsw (by decide))),
      if_neg (by simp [hnand]), if_pos hsw]
  · intro hsw hne hnand hand
    unfold computeGateOutput
    rw [if_neg (startsWith_ne t "nand2" "or" hsw (by decide)),
      if_neg (startsWith_ne t "and2" "or" hsw (by decide)),
      if_neg hne,
      if_neg (startsWith_ne t "nor2" "or" hsw (by decide)),
      if_neg (startsWith_ne t "xor2" "or" hsw (by decide)),
      if_neg (fun h => h.elim (startsWith_ne t "not1" "or" hsw (by decide))
        (startsWith_ne t "inverter" "or" hsw (by decide))),
      if_neg (fun h => h.elim (startsWith_ne t "buf1" "or" hsw (by decide))
        (startsWith_ne t "buffer" "or" hsw (by decide))),
      if_neg (by simp [hnand]), if_neg (by simp [hand]), if_pos hsw]
  · intro hsw hne hnand hand hor
    unfold computeGateOutput
    rw [if_neg (startsWith_ne t "nand2" "nor" hsw (by decide)),
      if_neg (startsWith_ne t "and2" "nor" hsw (by decide)),
      if_neg (startsWith_ne t "or2" "nor" hsw (by decide)),
      if_neg hne,
      if_neg (startsWith_ne t "xor2" "nor" hsw (by decide)),
      if_neg (fun h => h.elim (startsWith_ne t "not1" "nor" hsw (by decide))
        (startsWith_ne t "inverter" "nor" hsw (by decide))),
      if_neg (fun h => h.elim (startsWith_ne t "buf1" "nor" hsw (by decide))
        (startsWith_ne t "buffer" "nor" hsw (by decide))),
      if_neg (by simp [hnand]), if_neg (by simp [hand]), if_neg (by simp [hor]),
      if_pos hsw]
  · intro hnames hnand hand hor hnor
    unfold computeGateOutput
    rw [if_neg (hnames "nand2" (by simp)),
      if_neg (hnames "and2" (by simp)),
      if_neg (hnames "or2" (by simp)),
      if_neg (hnames "nor2" (by simp)),
      if_neg (hnames "xor2" (by simp)),
      if_neg (fun h => h.elim (hnames "not1" (by simp)) (hnames "inverter" (by simp))),
      if_neg (fun h => h.elim (hnames "buf1" (by simp)) (hnames "buffer" (by simp))),
      if_neg (by simp [hnand]), if_neg (by simp [hand]), if_neg (by simp [hor]),
      if_neg (by simp [hnor])]

theorem C4_witness :
    computeGateOutput "nand3" [true, false] = some (!([true, false].all id)) :=
  (C4_gate_evaluator [true, false] true false
    "nand3").2.2.2.2.2.2.2.2.2.1 (by decide) (by decide)

/-- Claim C9: a component of type `port` whose name begins with neither `i`
nor `o` is appended to neither port list by the classification loop, and the
subsequent `(len, lex)` sort cannot introduce it: it is silently excluded
from the model's port sets. -/
theorem C9_port_exclusion (components : List (String × String)) (name : String)
    (_hcomp : (name, "port") ∈ components)
    (h1 : pyStartsWith name "i" = false) (h2 : pyStartsWith name "o" = false) :
    name ∉ (loadPorts components).1 ∧ name ∉ (loadPorts components).2 := by
  constructor
  · intro hmem
    have hm2 : name ∈ (classifyPorts components).1 := List.mem_mergeSort.mp hmem
    rcases (classifyPorts_startsWith components ([], [])).1 name hm2 with h | h
    · exact absurd h (List.not_mem_nil name)
    · rw [h] at h1
      exact absurd h1 (by decide)
  · intro hmem
    have hm2 : name ∈ (classifyPorts components).2 := List.mem_mergeSort.mp hmem
    rcases (classifyPorts_startsWith components ([], [])).2 name hm2 with h | h
    · exact absurd h (List.not_mem_nil name)
    · rw [h] at h2
      exact absurd h2 (by decide)

theorem C9_witness :
    "p5" ∉ (loadPorts [("i1", "port"), ("p5", "port"), ("o1", "port")]).1 ∧
    "p5" ∉ (loadPorts [("i1", "port"), ("p5", "port"), ("o1", "port")]).2 :=
  C9_port_exclusion [("i1", "port"), ("p5", "port"), ("o1", "port")] "p5"
    (by decide) (by decide) (by decide)

/-- A two-gate dependency cycle: each buffer reads the other's output. -/
def cyclicGates : List Gate :=
  [⟨"gateA", "buf1", ["wB"], some "wA"⟩, ⟨"gateB", "buf1", ["wA"], some "wB"⟩]

/-- Claim C2 counterexample: on a cyclic model `_topologicalSort` raises no
error and returns normally; both gates are silently dropped, so loading
completes and stores an empty gate list instead of rejecting the model. -/
theorem C2_counterexample :
    topologicalSort cyclicGates = [] ∧ cyclicGates.length = 2 := by decide

/-- Claim C2 as amended: a dependency cycle is not a fatal error; gates whose
in-degree never reaches zero are silently omitted, and in particular when
every gate consumes some gate-produced signal the initial queue of Kahn's
algorithm is empty and the stored gate list is empty, with no exception
raised. -/
theorem C2_silent_cycle_drop (gi : List Gate)
    (hcyc : ∀ g ∈ gi, inDegree gi g.name ≠ 0) :
    topologicalSort gi = [] := by
  have hq : (gi.map (fun g => g.name)).filter (fun n => decide (inDegree gi n = 0)) = [] := by
    rw [List.filter_eq_nil_iff]
    intro n hn
    obtain ⟨g, hg, rfl⟩ := List.mem_map.mp hn
    simp [hcyc g hg]
  simp only [topologicalSort, hq]
  rfl

theorem C2_witness : topologicalSort cyclicGates = [] :=
  C2_silent_cycle_drop cyclicGates (by decide)

/-- Claim C5: during one `simulate` call over a loaded model (every gate's
output pin resolved to a nonempty signal name, arities adequate, gate output
signals not keys of the input mapping), every gate performs exactly one write,
namely to its own output signal (the write trace is the gate list's outputs in
order), no key of the input mapping is ever written, and the returned map
binds each key of the input mapping to its given value. -/
theorem C5_write_discipline (gates : List Gate) (inputs : SigMap)
    (faulty : Option String) (fv : Bool)
    (hres : ∀ g ∈ gates, ∃ out, g.output = some out ∧ out ≠ "")
    (harity : ∀ g ∈ gates, arityOK g.type g.inputs.length = true)
    (hdisj : ∀ g ∈ gates, ∀ out, g.output = some out → inputs out = none) :
    ∃ m ws, simulateW faulty fv gates inputs = some (m, ws) ∧
      ws = gates.filterMap (fun g => g.output) ∧
      ws.length = gates.length ∧
      (∀ w ∈ ws, inputs w = none) ∧
      (∀ s v2, inputs s = some v2 → m s = some v2) := by
  obtain ⟨m, ws, hsim, hws, hframe⟩ := simulateW_spec faulty fv gates inputs hres harity
  refine ⟨m, ws, hsim, hws, ?_, ?_, ?_⟩
  · rw [hws]
    exact filterMap_output_length gates (fun g hg => by
      obtain ⟨o, ho, _⟩ := hres g hg
      rw [ho]; rfl)
  · intro w hw
    rw [hws] at hw
    obtain ⟨g, hg, hout⟩ := List.mem_filterMap.mp hw
    exact hdisj g hg w hout
  · intro s v2 hs
    have hnot : ∀ g' ∈ gates, g'.output ≠ some s := by
      intro g' hg' hout
      rw [hdisj g' hg' s hout] at hs
      exact absurd hs (by simp)
    rw [hframe s hnot, hs]

theorem C5_witness :
    ∃ m ws,
      simulateW none false demoModel.gates (extractInputs demoModel.inputs demoFaulty) =
        some (m, ws) ∧
      ws = demoModel.gates.filterMap (fun g => g.output) ∧
      ws.length = demoModel.gates.length ∧
      (∀ w ∈ ws, extractInputs demoModel.inputs demoFaulty w = none) ∧
      (∀ s v2, extractInputs demoModel.inputs demoFaulty s = some v2 →
        m s = some v2) := by
  refine C5_write_discipline demoModel.gates (extractInputs demoModel.inputs demoFaulty)
    none false ?_ (by decide) ?_
  · intro g hg
    have hgd : g = demoGate := by simpa [demoModel] using hg
    subst hgd
    exact ⟨"o1", rfl, by decide⟩
  · intro g hg out hout
    have hgd : g = demoGate := by simpa [demoModel] using hg
    subst hgd
    have ho : out = "o1" := by simpa [demoGate] using hout.symm
    subst ho
    rfl

/-- Claim C1: if an observation consists of an input assignment `x` together
with the output-port values of a single-fault simulation forcing gate `g` to
`v`, and the observation differs from the nominal simulation on at least one
output port, then `Input` detects and isolates `g`.  The hypotheses are the
loaded-model invariants: `g` is a model gate, every gate's arity is adequate,
and the output ports are disjoint from the input ports. -/
theorem C1_fault_coverage (m : Model) (x : String → Bool) (g : Gate) (v : Bool)
    (fsig nom : SigMap) (clock : Nat → Rat)
    (hg : g ∈ m.gates)
    (harity : ∀ g2 ∈ m.gates, arityOK g2.type g2.inputs.length = true)
    (hdisj : ∀ p ∈ m.outputs, p ∉ m.inputs)
    (hfs : simulate (some g.name) v m.gates (inputMap m.inputs x) = some fsig)
    (hnom : simulate none false m.gates (inputMap m.inputs x) = some nom)
    (hdiff : ∃ p ∈ m.outputs, obsOf m x fsig p ≠ nom p) :
    ∃ iso, Input m (obsOf m x fsig) none none clock = some (true, iso) ∧
      g.name ∈ iso := by
  have hext : extractInputs m.inputs (obsOf m x fsig) = inputMap m.inputs x := by
    funext s
    by_cases hs : s ∈ m.inputs <;> simp [extractInputs, obsOf, inputMap, hs]
  have hconsF : checkConsistent m.outputs fsig (obsOf m x fsig) = true := by
    rw [checkConsistent, List.all_eq_true]
    intro out hout
    have hob : obsOf m x fsig out = fsig out := by
      simp [obsOf, hdisj out hout, hout]
    rw [hob]
    cases fsig out <;> simp
  obtain ⟨p, hp, hne⟩ := hdiff
  have hop : obsOf m x fsig p = fsig p := by simp [obsOf, hdisj p hp, hp]
  have hdomeq := simulate_domain (some g.name) none v false m.gates
    (inputMap m.inputs x) (inputMap m.inputs x) fsig nom (fun _ => rfl) hfs hnom p
  have hcheck : checkConsistent m.outputs nom (obsOf m x fsig) = false := by
    cases hfp : fsig p with
    | none =>
      exfalso
      have hisn : (nom p).isSome = false := by rw [← hdomeq, hfp]; rfl
      have hnone : nom p = none := by
        cases hv : nom p with
        | none => rfl
        | some b2 => rw [hv] at hisn; exact absurd hisn (by simp)
      exact hne (by rw [hop, hfp, hnone])
    | some a =>
      have hps : (nom p).isSome = true := by rw [← hdomeq, hfp]; rfl
      obtain ⟨b2, hb2⟩ := Option.isSome_iff_exists.mp hps
      have hab : (b2 == a) = false := by
        rw [beq_eq_false_iff_ne]
        intro he
        exact hne (by rw [hop, hfp, hb2, he])
      rw [checkConsistent, List.all_eq_false]
      refine ⟨p, hp, ?_⟩
      rw [hop, hfp, hb2]
      simp [hab]
  obtain ⟨⟨iso, cons⟩, hloop⟩ := isoLoop_total m.gates m.outputs
    (inputMap m.inputs x) (obsOf m x fsig) none none clock harity m.gates 0 [] []
  have hstep : isoStep m.gates m.outputs (inputMap m.inputs x) (obsOf m x fsig) g =
      some true :=
    isoStep_true m.gates m.outputs (inputMap m.inputs x) (obsOf m x fsig) g harity
      v fsig hfs hconsF
  refine ⟨iso, ?_, ?_⟩
  · simp only [Input, hext, hnom, hcheck, Bool.not_false, if_true, hloop]
  · exact isoLoop_none_mem m.gates m.outputs (inputMap m.inputs x) (obsOf m x fsig)
      clock m.gates 0 [] [] iso cons hloop g hg hstep

/-- The all-false input assignment used to witness claim C1. -/
def demoX : String → Bool := fun _ => false

/-- The faulty simulation of `demoModel` forcing `gate1` stuck-at-true under
the all-false inputs. -/
def demoFsig : SigMap := mapSet (inputMap demoModel.inputs demoX) "o1" true

theorem C1_witness :
    ∃ iso, Input demoModel (obsOf demoModel demoX demoFsig) none none (fun _ => 0) =
      some (true, iso) ∧ demoGate.name ∈ iso :=
  C1_fault_coverage demoModel demoX demoGate true demoFsig
    (mapSet (inputMap demoModel.inputs demoX) "o1" false) (fun _ => 0)
    (by decide) (by decide) (by decide) rfl rfl
    ⟨"o1", by decide, by decide⟩

/-- Claim C7: with a truthy (nonzero) timeout and start time and detection
true, the wall clock is consulted exactly at the gate indices divisible by
100; at the first such consultation where the elapsed time exceeds the
budget, enumeration stops and `Input` returns detection `true` together with
precisely the candidates accumulated from the gates before the stop index, so
at most 100 gate iterations can follow the passing of the deadline. -/
theorem C7_budget_stop (m : Model) (sample : SigMap) (q s : Rat)
    (clock : Nat → Rat) (nom : SigMap)
    (hq : q ≠ 0) (hs : s ≠ 0)
    (harity : ∀ g2 ∈ m.gates, arityOK g2.type g2.inputs.length = true)
    (hnom : simulate none false m.gates (extractInputs m.inputs sample) = some nom)
    (hdet : checkConsistent m.outputs nom sample = false)
    (m0 : Nat) (hm0 : m0 % 100 = 0) (hm0lt : m0 < m.gates.length)
    (hex : clock m0 - s > q)
    (hfirst : ∀ k, k < m0 → k % 100 = 0 → ¬(clock k - s > q)) :
    ∃ iso cons,
      isoLoop m.gates m.outputs (extractInputs m.inputs sample) sample
          (some q) (some s) clock m.gates 0 [] [] = some (iso, cons) ∧
      Input m sample (some q) (some s) clock = some (true, iso) ∧
      (∀ k, k ∈ cons ↔ (k % 100 = 0 ∧ k ≤ m0)) ∧
      (∀ cons2,
        isoLoop m.gates m.outputs (extractInputs m.inputs sample) sample
            none none clock (m.gates.take m0) 0 [] cons2 = some (iso, cons2)) := by
  obtain ⟨iso, h1, h2⟩ := isoLoop_break m.gates m.outputs
    (extractInputs m.inputs sample) sample q s clock hq hs m0 hm0 hex harity
    m.gates 0 [] [] (Nat.zero_le m0) (by simpa using hm0lt)
    (fun k _ hk2 hk3 => hfirst k hk2 hk3)
  rw [List.nil_append] at h1
  refine ⟨iso, consultsUpTo 0 m0, h1, ?_, ?_, ?_⟩
  · simp only [Input, hnom, hdet, Bool.not_false, if_true, h1]
  · intro k
    unfold consultsUpTo
    rw [List.mem_filter, List.mem_range'_1]
    constructor
    · rintro ⟨⟨_, hk⟩, hmod⟩
      exact ⟨by simpa using hmod, by omega⟩
    · rintro ⟨hmod, hk⟩
      exact ⟨⟨Nat.zero_le k, by omega⟩, by simpa using hmod⟩
  · intro cons2
    have := h2 cons2
    rwa [Nat.sub_zero] at this

theorem C7_witness :
    ∃ iso cons,
      isoLoop demoModel.gates demoModel.outputs
          (extractInputs demoModel.inputs demoFaulty) demoFaulty
          (some 1) (some 5) (fun _ => 100) demoModel.gates 0 [] [] = some (iso, cons) ∧
      Input demoModel demoFaulty (some 1) (some 5) (fun _ => 100) = some (true, iso) ∧
      (∀ k, k ∈ cons ↔ (k % 100 = 0 ∧ k ≤ 0)) ∧
      (∀ cons2,
        isoLoop demoModel.gates demoModel.outputs
            (extractInputs demoModel.inputs demoFaulty) demoFaulty
            none none (fun _ => 100) (demoModel.gates.take 0) 0 [] cons2 =
          some (iso, cons2)) :=
  C7_budget_stop demoModel demoFaulty 1 5 (fun _ => 100) demoNom
    (by norm_num) (by norm_num) (by decide) rfl (by decide)
    0 (by decide) (by decide) (by norm_num)
    (fun k hk _ => absurd hk (Nat.not_lt_zero k))

end DxcSynth
